import Mathlib

/-!
Verification of the Gantt_Project repository (src/app.py) against its
natural-language specification.

Embedding conventions:
* Dates are embedded as their proleptic-Gregorian day ordinals (`Int`, days
  since 1970-01-01): Python `date` subtraction `(d2 - d1).days` is exactly
  ordinal subtraction, and `min`/`max` on dates is `min`/`max` on ordinals.
  `date_to_str`/`str_to_date` (app.py lines 54-58) are mutually inverse
  bijections between dates and their `%Y-%m-%d` strings, so the embedding
  identifies a serialized date with its ordinal; `mkDate` produces the
  ordinal of a concrete calendar date for test inputs.
* Python `float` arithmetic on progress values is modelled by exact rational
  arithmetic (`ℚ`); `round(x, 2)` is round-half-to-even at two decimals
  (`round2`), and `int(x)` is truncation toward zero (`pyInt`).
* SQLAlchemy rows are plain structures; a table read is a `List`; `None`
  is `Option.none`.
-/

namespace Gantt

/-- Day ordinal (days since 1970-01-01) of the Gregorian calendar date
`y-m-d`, via the standard days-from-civil algorithm; used only to build
concrete dates. Valid for the CE years used here. -/
def mkDate (y m d : Int) : Int :=
  let yy := if m ≤ 2 then y - 1 else y
  let era := yy / 400
  let yoe := yy - era * 400
  let mp := (m + 9) % 12
  let doy := (153 * mp + 2) / 5 + d - 1
  let doe := yoe * 365 + yoe / 4 - yoe / 100 + doy
  era * 146097 + doe - 719468

/-- Models `date_to_str` (app.py line 57): `strftime('%Y-%m-%d')` is injective
on dates, so the embedding identifies the serialized string with the date's
ordinal. -/
def date_to_str (d : Int) : Int := d

/-- Models `str_to_date` (app.py line 54), the inverse of `date_to_str`. -/
def str_to_date (s : Int) : Int := s

/-- Python `int(_)` on a rational: truncation toward zero. -/
def pyInt (q : ℚ) : ℤ := if 0 ≤ q then ⌊q⌋ else ⌈q⌉

/-- Python `round(_)` to an integer: round half to even. -/
def rhe (q : ℚ) : ℤ :=
  if q - ⌊q⌋ < 1/2 then ⌊q⌋
  else if 1/2 < q - ⌊q⌋ then ⌊q⌋ + 1
  else if ⌊q⌋ % 2 = 0 then ⌊q⌋ else ⌊q⌋ + 1

/-- Python `round(_, 2)`: round half to even at two decimal places. -/
def round2 (q : ℚ) : ℚ := (rhe (q * 100) : ℚ) / 100

/-- The `Task` model (app.py lines 24-33). `progress` is the stored integer
percentage; `task_type` is the stored kind string. -/
structure Task where
  id : Nat
  parent_id : Option Nat
  name : String
  start : Int
  end_ : Int
  progress : Int
  assignee : Option String
  status : Option String
  task_type : String
deriving DecidableEq, Repr

/-- The `BaselineTask` snapshot row (app.py lines 46-51), restricted to one
baseline (the rows returned by `filter_by(baseline_id=...)`). -/
structure BaselineTask where
  original_task_id : Nat
  start : Int
  end_ : Int
deriving DecidableEq, Repr

/-- One element of the `tasks_data` list built by `get_data`
(app.py lines 100-111 and 121-122). -/
structure DerivedTask where
  id : Nat
  text : String
  start_date : Int
  end_date : Int
  duration : Int
  progress : ℚ
  parent : Nat
  type : String
  assignee : Option String
  status : Option String
  planned_start : Option Int := none
  planned_end : Option Int := none
deriving DecidableEq, Repr

/-- Python truthiness of `task.parent_id` (app.py line 70): `None` and `0`
are falsy. -/
def truthyParent (t : Task) : Option Nat :=
  match t.parent_id with
  | none => none
  | some p => if p = 0 then none else some p

/-- The ordered child-id list `children_map[pid]` (app.py lines 68-73):
ids of the tasks whose truthy `parent_id` equals `pid`, in input order. -/
def childIds (tasks : List Task) (pid : Nat) : List Nat :=
  (tasks.filter fun t => truthyParent t == some pid).map Task.id

/-- Membership test `pid in children_map` (app.py line 83). -/
def hasKey (tasks : List Task) (pid : Nat) : Bool :=
  tasks.any fun t => truthyParent t == some pid

/-- Lookup in `tasks_map` (app.py line 67): dict comprehension keyed by id, so a
later task with the same id overwrites an earlier one. -/
def tasksMapFind (tasks : List Task) (i : Nat) : Option Task :=
  tasks.reverse.find? fun t => t.id == i

/-- Resolution of `child_tasks` (app.py line 86): resolve the child ids through the index,
silently skipping unresolvable ids. -/
def childTasks (tasks : List Task) (pid : Nat) : List Task :=
  (childIds tasks pid).filterMap (tasksMapFind tasks)

/-- Python `min(ct.start for ct in child_tasks)` guarded by `if child_tasks:`
(app.py lines 87-88). -/
def rolledStart (cts : List Task) (dflt : Int) : Int :=
  match cts with
  | [] => dflt
  | c :: rest => rest.foldl (fun a x => min a x.start) c.start

/-- Python `max(ct.end for ct in child_tasks)` guarded by `if child_tasks:`
(app.py lines 87-89). -/
def rolledEnd (cts : List Task) (dflt : Int) : Int :=
  match cts with
  | [] => dflt
  | c :: rest => rest.foldl (fun a x => max a x.end_) c.end_

/-- Duration `(ct.end - ct.start).days` of a task. -/
def durDays (t : Task) : Int := t.end_ - t.start

/-- The duration-weighted progress rollup (app.py lines 91-96), with `dflt`
the already-initialized `progress` it falls back to;
`cts.filter fun ct => 0 < durDays ct` is `child_tasks_with_duration`. -/
def rolledProgress (cts : List Task) (dflt : ℚ) : ℚ :=
  if (cts.filter fun ct => 0 < durDays ct).isEmpty then dflt
  else if 0 < (((cts.filter fun ct => 0 < durDays ct).map durDays).sum : ℤ) then
    ((((cts.filter fun ct => 0 < durDays ct).map
        fun ct => durDays ct * ct.progress).sum : ℤ) : ℚ) /
      ((((cts.filter fun ct => 0 < durDays ct).map durDays).sum : ℤ) : ℚ) / 100
  else dflt

/-- The body of the `for task in tasks_from_db` loop of `get_data`
(app.py lines 76-111): derive one output record from one task, given the
full task list the maps were built from. -/
def deriveTask (tasks : List Task) (t : Task) : DerivedTask :=
  let isProj := t.task_type = "project"
  let key := hasKey tasks t.id
  let cts := childTasks tasks t.id
  let s := if isProj ∧ key = true then rolledStart cts t.start else t.start
  let e := if isProj ∧ key = true then rolledEnd cts t.end_ else t.end_
  let p : ℚ :=
    if isProj ∧ key = true then rolledProgress cts ((t.progress : ℚ) / 100)
    else (t.progress : ℚ) / 100
  let ty := if isProj ∧ key = false then "task" else t.task_type
  { id := t.id
    text := t.name
    start_date := date_to_str s
    end_date := date_to_str e
    duration := e - s
    progress := round2 p
    parent := t.parent_id.getD 0
    type := ty
    assignee := t.assignee
    status := t.status }

/-- The Schedule Aggregator: the whole `tasks_data` list of `get_data`
(app.py lines 62-111). -/
def aggregate (tasks : List Task) : List DerivedTask :=
  tasks.map (deriveTask tasks)

/-- The inner `for task_data in tasks_data: ... break` loop of the baseline
merge (app.py lines 119-123): annotate the first derived task whose id is the
snapshot row's `original_task_id`. -/
def setPlanned (bt : BaselineTask) : List DerivedTask → List DerivedTask
  | [] => []
  | d :: rest =>
    if d.id = bt.original_task_id then
      { d with planned_start := some (date_to_str bt.start)
               planned_end := some (date_to_str bt.end_) } :: rest
    else d :: setPlanned bt rest

/-- The Baseline Merge (app.py lines 115-123): fold the snapshot rows of the
selected baseline over the derived list. -/
def applyBaseline (ds : List DerivedTask) (bts : List BaselineTask) : List DerivedTask :=
  bts.foldl (fun acc bt => setPlanned bt acc) ds

/-- Baseline creation's snapshot (app.py lines 199-201): one `BaselineTask`
per current task, copying its stored start/end. -/
def snapshotOf (tasks : List Task) : List BaselineTask :=
  tasks.map fun t => ⟨t.id, t.start, t.end_⟩

/-- The form payload of POST/PUT `/api/task` (app.py lines 129, 142): each
field is `some v` when present with (already type-converted) value `v`, and
`none` when absent. Dates are carried as parsed ordinals (`str_to_date` of the
submitted string); `progress` is the submitted 0-1 float as a rational;
`parent` is the submitted id string read as a number. -/
structure TaskForm where
  text : Option String := none
  start_date : Option Int := none
  end_date : Option Int := none
  progress : Option ℚ := none
  parent : Option Nat := none
  type : Option String := none
  assignee : Option String := none
  status : Option String := none
deriving DecidableEq, Repr

/-- The field assignments of `update_task` (app.py lines 146-154) applied to
one task. `data.get(k, dflt)` is `Option.getD`; for the dates the default
round-trips through `date_to_str`/`str_to_date`; `parent` is `None` when the
field is absent or `'0'` (line 151); `progress` is only written when the
payload's `type` is not `'project'` (lines 149-150). -/
def updateTaskFields (t : Task) (f : TaskForm) : Task :=
  { t with
    name := f.text.getD t.name
    start := str_to_date (f.start_date.getD (date_to_str t.start))
    end_ := str_to_date (f.end_date.getD (date_to_str t.end_))
    progress :=
      if f.type = some "project" then t.progress
      else pyInt ((f.progress.getD ((t.progress : ℚ) / 100)) * 100)
    parent_id := if f.parent = some 0 then none else f.parent
    task_type := f.type.getD t.task_type
    assignee := match f.assignee with | some a => some a | none => t.assignee
    status := match f.status with | some st => some st | none => t.status }

/-- PUT `/api/task/{id}` (app.py lines 140-156) over a task table: the updated
table and the `action` string of the JSON response. -/
def update_task (tasks : List Task) (i : Nat) (f : TaskForm) : List Task × String :=
  if tasks.any fun t => t.id == i then
    (tasks.map fun t => if t.id = i then updateTaskFields t f else t, "updated")
  else (tasks, "error")

/-- Re-expression of a derived record as a stored task, using the system's
own ingestion conventions of `add_task` (app.py lines 130-135): dates parsed
by `str_to_date`, progress stored as `int(float(p) * 100)`, `parent` of `0`
meaning no parent, `text` stored as `name`. The id is kept so the record
denotes the same task. -/
def derivedToTask (d : DerivedTask) : Task :=
  { id := d.id
    parent_id := if d.parent = 0 then none else some d.parent
    name := d.text
    start := str_to_date d.start_date
    end_ := str_to_date d.end_date
    progress := pyInt (d.progress * 100)
    assignee := d.assignee
    status := d.status
    task_type := d.type }

/-- The planned-field annotation written by the merge loop
(app.py lines 121-122). -/
def markPlanned (bt : BaselineTask) (d : DerivedTask) : DerivedTask :=
  { d with planned_start := some (date_to_str bt.start)
           planned_end := some (date_to_str bt.end_) }

/-- The derived view re-expressed as a stored task table (C3's
"already-aggregated set"), via `derivedToTask`. -/
def reaggregated (ts : List Task) : List Task :=
  (aggregate ts).map derivedToTask

/-- Shorthand for one re-expressed derived row. -/
def reTask (ts : List Task) (t : Task) : Task :=
  derivedToTask (deriveTask ts t)

/-- The sample data installed by the `seed-db` CLI command
(app.py lines 233-239), used as a concrete test universe. -/
def seedTasks : List Task :=
  [ ⟨1, none, "summary 1", mkDate 2025 9 19, mkDate 2025 9 27, 0, some "A", some "ip", "project"⟩,
    ⟨2, some 1, "sub 1-1", mkDate 2025 9 19, mkDate 2025 9 23, 50, some "B", some "ip", "task"⟩,
    ⟨3, some 1, "sub 1-2", mkDate 2025 9 23, mkDate 2025 9 27, 20, some "A", some "wait", "task"⟩,
    ⟨4, none, "report", mkDate 2025 9 27, mkDate 2025 9 27, 100, none, none, "milestone"⟩,
    ⟨5, none, "indep 2", mkDate 2025 9 28, mkDate 2025 10 1, 0, some "C", some "wait", "task"⟩ ]

/-- A project whose two children have unequal durations (3 days at 50%,
1 day at 20%): the exact weighted average is 42.5% but the emitted progress
is rounded to two decimals. -/
def unevenTasks : List Task :=
  [ ⟨1, none, "P", mkDate 2025 1 1, mkDate 2025 1 5, 0, none, none, "project"⟩,
    ⟨2, some 1, "C1", mkDate 2025 1 1, mkDate 2025 1 4, 50, none, none, "task"⟩,
    ⟨3, some 1, "C2", mkDate 2025 1 4, mkDate 2025 1 5, 20, none, none, "task"⟩ ]

/-- Project Q whose only child is a zero-duration milestone at 2025-09-27:
the spec's second concrete scenario. -/
def milestoneOnlyTasks : List Task :=
  [ ⟨10, none, "Q", mkDate 2025 9 1, mkDate 2025 9 2, 0, none, none, "project"⟩,
    ⟨11, some 10, "M", mkDate 2025 9 27, mkDate 2025 9 27, 100, none, none, "milestone"⟩ ]

/-- A project whose stored dates (Jan 1 - Jan 10) differ from its single
child's dates (Jan 3 - Jan 8): the rollup moves the derived dates away from
the snapshotted stored dates. -/
def skewedTasks : List Task :=
  [ ⟨1, none, "P", mkDate 2025 1 1, mkDate 2025 1 10, 0, none, none, "project"⟩,
    ⟨2, some 1, "C", mkDate 2025 1 3, mkDate 2025 1 8, 0, none, none, "task"⟩ ]

/-- A two-level project nest: G contains project P, which contains task C.
The single-level rollup derives G from P's *stored* dates, so re-aggregating
the derived set (where P's stored dates have become its rollup) moves G. -/
def nestedTasks : List Task :=
  [ ⟨1, none, "G", mkDate 2025 1 1, mkDate 2025 1 11, 0, none, none, "project"⟩,
    ⟨2, some 1, "P", mkDate 2025 1 3, mkDate 2025 1 9, 0, none, none, "project"⟩,
    ⟨3, some 2, "C", mkDate 2025 1 5, mkDate 2025 1 6, 0, none, none, "task"⟩ ]

/-- Rounding half-to-even fixes every integer. -/
theorem rhe_intCast (p : ℤ) : rhe (p : ℚ) = p := by
  simp [rhe]

/-- Rounding `round(p / 100, 2)` is exact on integer percentages. -/
theorem round2_int_div_100 (p : ℤ) : round2 ((p : ℚ) / 100) = (p : ℚ) / 100 := by
  have h : ((p : ℚ) / 100) * 100 = (p : ℚ) := by ring
  rw [round2, h, rhe_intCast]

/-- Truncation toward zero fixes every integer. -/
theorem pyInt_intCast (p : ℤ) : pyInt (p : ℚ) = p := by
  rcases le_or_lt 0 (p : ℚ) with h | h
  · simp [pyInt, h]
  · simp [pyInt, not_le.mpr h]

/-- A task whose stored kind is not `project` passes through the aggregation
unchanged (dates and progress from the stored row). -/
theorem deriveTask_not_project (ts : List Task) (t : Task) (h : t.task_type ≠ "project") :
    deriveTask ts t =
      { id := t.id, text := t.name, start_date := date_to_str t.start,
        end_date := date_to_str t.end_, duration := t.end_ - t.start,
        progress := round2 ((t.progress : ℚ) / 100), parent := t.parent_id.getD 0,
        type := t.task_type, assignee := t.assignee, status := t.status } := by
  simp [deriveTask, h]

/-- A stored `project` with a children-map entry derives the rolled-up dates
and progress. -/
theorem deriveTask_project_key (ts : List Task) (t : Task)
    (hp : t.task_type = "project") (hk : hasKey ts t.id = true) :
    deriveTask ts t =
      { id := t.id, text := t.name,
        start_date := date_to_str (rolledStart (childTasks ts t.id) t.start),
        end_date := date_to_str (rolledEnd (childTasks ts t.id) t.end_),
        duration := rolledEnd (childTasks ts t.id) t.end_ -
          rolledStart (childTasks ts t.id) t.start,
        progress := round2 (rolledProgress (childTasks ts t.id) ((t.progress : ℚ) / 100)),
        parent := t.parent_id.getD 0, type := t.task_type,
        assignee := t.assignee, status := t.status } := by
  simp [deriveTask, hp, hk]

/-- A stored `project` without a children-map entry derives its stored values
with kind `task`. -/
theorem deriveTask_project_nokey (ts : List Task) (t : Task)
    (hp : t.task_type = "project") (hk : hasKey ts t.id = false) :
    deriveTask ts t =
      { id := t.id, text := t.name, start_date := date_to_str t.start,
        end_date := date_to_str t.end_, duration := t.end_ - t.start,
        progress := round2 ((t.progress : ℚ) / 100), parent := t.parent_id.getD 0,
        type := "task", assignee := t.assignee, status := t.status } := by
  simp [deriveTask, hp, hk]

/-- A `filterMap` whose function succeeds on every element keeps the length. -/
theorem length_filterMap_of_isSome {α β : Type} (f : α → Option β) (l : List α)
    (h : ∀ a ∈ l, (f a).isSome) : (l.filterMap f).length = l.length := by
  induction l with
  | nil => rfl
  | cons a as ih =>
    rw [List.filterMap_cons]
    rcases Option.isSome_iff_exists.mp (h a (by simp)) with ⟨b, hb⟩
    rw [hb]
    simp [ih fun x hx => h x (by simp [hx])]

/-- A children-map entry exists for `pid` exactly when some task's truthy
parent is `pid`. -/
theorem hasKey_iff (ts : List Task) (pid : Nat) :
    hasKey ts pid = true ↔ ∃ t ∈ ts, truthyParent t = some pid := by
  simp [hasKey, List.any_eq_true]

/-- Every id in a children-map entry resolves through the id index. -/
theorem tasksMapFind_isSome_of_mem_childIds (ts : List Task) (pid : Nat)
    (cid : Nat) (h : cid ∈ childIds ts pid) : (tasksMapFind ts cid).isSome := by
  rcases List.mem_map.mp h with ⟨t, ht, rfl⟩
  exact List.find?_isSome.mpr ⟨t, by simp [List.mem_filter.mp ht |>.1]⟩

/-- A children-map entry is a nonempty id list. -/
theorem childIds_ne_nil_of_hasKey (ts : List Task) (pid : Nat)
    (h : hasKey ts pid = true) : childIds ts pid ≠ [] := by
  rcases (hasKey_iff ts pid).mp h with ⟨t, ht, hp⟩
  have : t.id ∈ childIds ts pid :=
    List.mem_map.mpr ⟨t, List.mem_filter.mpr ⟨ht, by simp [hp]⟩, rfl⟩
  exact List.ne_nil_of_mem this

/-- The resolved child list keeps one task per child id. -/
theorem childTasks_length (ts : List Task) (pid : Nat) :
    (childTasks ts pid).length = (childIds ts pid).length :=
  length_filterMap_of_isSome _ _ fun cid hcid =>
    tasksMapFind_isSome_of_mem_childIds ts pid cid hcid

/-- A project with a children-map entry resolves a nonempty child list. -/
theorem childTasks_ne_nil_of_hasKey (ts : List Task) (pid : Nat)
    (h : hasKey ts pid = true) : childTasks ts pid ≠ [] := by
  intro hnil
  have hlen := childTasks_length ts pid
  rw [hnil] at hlen
  exact childIds_ne_nil_of_hasKey ts pid h (List.eq_nil_of_length_eq_zero hlen.symm)

/-- A nonempty resolved child list forces a children-map entry. -/
theorem hasKey_of_childTasks_ne_nil (ts : List Task) (pid : Nat)
    (h : childTasks ts pid ≠ []) : hasKey ts pid = true := by
  by_contra hk
  have hk' : hasKey ts pid = false := by
    cases hkk : hasKey ts pid
    · rfl
    · exact absurd hkk hk
  have : childIds ts pid = [] := by
    rcases hcid : childIds ts pid with _ | ⟨cid, rest⟩
    · rfl
    · exfalso
      have : cid ∈ childIds ts pid := by rw [hcid]; exact List.mem_cons_self ..
      rcases List.mem_map.mp this with ⟨t, ht, rfl⟩
      have hmem := List.mem_filter.mp ht
      have : hasKey ts pid = true :=
        (hasKey_iff ts pid).mpr ⟨t, hmem.1, by simpa using hmem.2⟩
      simp [hk'] at this
  exact h (by simp [childTasks, this])

/-- C10: the children map and the id index are built from the same task
collection, so every children-map entry resolves to a nonempty child list,
no child id is skipped by the `child_id in tasks_map` guard, and the
`min`/`max` on line 88-89 never see an empty sequence. -/
theorem children_map_entries_resolve (ts : List Task) (pid : Nat)
    (h : hasKey ts pid = true) :
    (∀ cid ∈ childIds ts pid, (tasksMapFind ts cid).isSome) ∧
    (childTasks ts pid).length = (childIds ts pid).length ∧
    childTasks ts pid ≠ [] ∧
    ((childTasks ts pid).map Task.start).min?.isSome := by
  refine ⟨fun cid hc => tasksMapFind_isSome_of_mem_childIds ts pid cid hc,
    childTasks_length ts pid, childTasks_ne_nil_of_hasKey ts pid h, ?_⟩
  rcases hne : childTasks ts pid with _ | ⟨c, rest⟩
  · exact absurd hne (childTasks_ne_nil_of_hasKey ts pid h)
  · simp [List.min?]

/-- Witness for C10 on the seeded database: task 1 is a parent. -/
theorem children_map_entries_resolve_witness :
    hasKey seedTasks 1 = true ∧
    ((∀ cid ∈ childIds seedTasks 1, (tasksMapFind seedTasks cid).isSome) ∧
      (childTasks seedTasks 1).length = (childIds seedTasks 1).length ∧
      childTasks seedTasks 1 ≠ [] ∧
      ((childTasks seedTasks 1).map Task.start).min?.isSome) :=
  ⟨by decide, children_map_entries_resolve seedTasks 1 (by decide)⟩

/-- C7: a stored `task` or `milestone` row passes through the aggregation
with its stored dates and its stored percentage divided by 100, and the
aggregated output has exactly one derived record per input task, in input
order. -/
theorem task_milestone_passthrough (ts : List Task) (t : Task) (i : ℕ)
    (h : t.task_type = "task" ∨ t.task_type = "milestone") :
    (deriveTask ts t).start_date = date_to_str t.start ∧
    (deriveTask ts t).end_date = date_to_str t.end_ ∧
    (deriveTask ts t).progress = (t.progress : ℚ) / 100 ∧
    (aggregate ts).length = ts.length ∧
    (aggregate ts)[i]? = ts[i]?.map (deriveTask ts) := by
  have hne : t.task_type ≠ "project" := by
    rcases h with h | h <;> simp [h]
  rw [deriveTask_not_project ts t hne]
  refine ⟨rfl, rfl, round2_int_div_100 t.progress, by simp [aggregate], by simp [aggregate]⟩

/-- Witness for C7: the seeded milestone (task 4). -/
theorem task_milestone_passthrough_witness :
    ((⟨4, none, "report", mkDate 2025 9 27, mkDate 2025 9 27,
        100, none, none, "milestone"⟩ : Task).task_type = "task" ∨
      (⟨4, none, "report", mkDate 2025 9 27, mkDate 2025 9 27,
        100, none, none, "milestone"⟩ : Task).task_type = "milestone") ∧
    (deriveTask seedTasks ⟨4, none, "report", mkDate 2025 9 27, mkDate 2025 9 27,
        100, none, none, "milestone"⟩).start_date = date_to_str (mkDate 2025 9 27) ∧
    (deriveTask seedTasks ⟨4, none, "report", mkDate 2025 9 27, mkDate 2025 9 27,
        100, none, none, "milestone"⟩).end_date = date_to_str (mkDate 2025 9 27) ∧
    (deriveTask seedTasks ⟨4, none, "report", mkDate 2025 9 27, mkDate 2025 9 27,
        100, none, none, "milestone"⟩).progress = ((100 : ℤ) : ℚ) / 100 ∧
    (aggregate seedTasks).length = seedTasks.length ∧
    (aggregate seedTasks)[3]? = seedTasks[3]?.map (deriveTask seedTasks) :=
  ⟨Or.inr rfl, task_milestone_passthrough seedTasks
    ⟨4, none, "report", mkDate 2025 9 27, mkDate 2025 9 27, 100, none, none, "milestone"⟩
    3 (Or.inr rfl)⟩

/-- C8: a stored `project` with no children-map entry is derived exactly as
the same row would be with stored kind `task`; in particular its derived kind
is `task`, while the stored row itself is untouched (the aggregator reads
`t` but builds a fresh output record). -/
theorem childless_project_derived_as_task (ts : List Task) (t : Task)
    (hp : t.task_type = "project") (hk : hasKey ts t.id = false) :
    deriveTask ts t = deriveTask ts { t with task_type := "task" } ∧
    (deriveTask ts t).type = "task" := by
  constructor
  · rw [deriveTask_not_project ts { t with task_type := "task" } (by simp)]
    simp [deriveTask, hp, hk]
  · simp [deriveTask, hp, hk]

/-- Witness for C8: a childless project among plain tasks. -/
theorem childless_project_derived_as_task_witness :
    (⟨7, none, "empty proj", mkDate 2025 1 1, mkDate 2025 1 5, 30, none, none,
        "project"⟩ : Task).task_type = "project" ∧
    hasKey seedTasks 7 = false ∧
    (deriveTask seedTasks ⟨7, none, "empty proj", mkDate 2025 1 1, mkDate 2025 1 5,
        30, none, none, "project"⟩ =
      deriveTask seedTasks { (⟨7, none, "empty proj", mkDate 2025 1 1, mkDate 2025 1 5,
        30, none, none, "project"⟩ : Task) with task_type := "task" } ∧
    (deriveTask seedTasks ⟨7, none, "empty proj", mkDate 2025 1 1, mkDate 2025 1 5,
        30, none, none, "project"⟩).type = "task") :=
  ⟨rfl, by decide, childless_project_derived_as_task seedTasks _ rfl (by decide)⟩

/-- Helper: the date rollup of a project with a children-map entry, shared by
the date-rollup claims. -/
theorem rollup_dates_spec (ts : List Task) (t : Task)
    (hp : t.task_type = "project") (hc : hasKey ts t.id = true) :
    (∃ m, ((childTasks ts t.id).map Task.start).min? = some m ∧
      (deriveTask ts t).start_date = date_to_str m) ∧
    (∃ m, ((childTasks ts t.id).map Task.end_).max? = some m ∧
      (deriveTask ts t).end_date = date_to_str m) := by
  rcases hne : childTasks ts t.id with _ | ⟨c, rest⟩
  · exact absurd hne (childTasks_ne_nil_of_hasKey ts t.id hc)
  constructor
  · refine ⟨rest.foldl (fun a x => min a x.start) c.start, ?_, ?_⟩
    · simp [List.min?, List.foldl_map]
    · simp [deriveTask, hp, hc, hne, rolledStart]
  · refine ⟨rest.foldl (fun a x => max a x.end_) c.end_, ?_, ?_⟩
    · simp [List.max?, List.foldl_map]
    · simp [deriveTask, hp, hc, hne, rolledEnd]

/-- C4: a project with a direct child derives its start as the minimum of the
resolved children's stored starts and its end as their maximum (children
whose id does not resolve in the index are skipped by `childTasks`). -/
theorem project_dates_rollup (ts : List Task) (t : Task)
    (hp : t.task_type = "project") (hc : hasKey ts t.id = true) :
    (∃ m, ((childTasks ts t.id).map Task.start).min? = some m ∧
      (deriveTask ts t).start_date = date_to_str m) ∧
    (∃ m, ((childTasks ts t.id).map Task.end_).max? = some m ∧
      (deriveTask ts t).end_date = date_to_str m) :=
  rollup_dates_spec ts t hp hc

/-- Witness for C4: the seeded project (task 1) rolls up to 2025-09-19 /
2025-09-27. -/
theorem project_dates_rollup_witness :
    (⟨1, none, "summary 1", mkDate 2025 9 19, mkDate 2025 9 27,
        0, some "A", some "ip", "project"⟩ : Task).task_type = "project" ∧
    hasKey seedTasks 1 = true ∧
    (∃ m, ((childTasks seedTasks 1).map Task.start).min? = some m ∧
      (deriveTask seedTasks ⟨1, none, "summary 1", mkDate 2025 9 19, mkDate 2025 9 27,
        0, some "A", some "ip", "project"⟩).start_date = date_to_str m) ∧
    (∃ m, ((childTasks seedTasks 1).map Task.end_).max? = some m ∧
      (deriveTask seedTasks ⟨1, none, "summary 1", mkDate 2025 9 19, mkDate 2025 9 27,
        0, some "A", some "ip", "project"⟩).end_date = date_to_str m) :=
  ⟨rfl, by decide, project_dates_rollup seedTasks
    ⟨1, none, "summary 1", mkDate 2025 9 19, mkDate 2025 9 27, 0, some "A", some "ip", "project"⟩
    rfl (by decide)⟩

/-- Helper: the weighted-progress rollup of a project with a durationful
resolved child, shared by the progress claims. -/
theorem rollup_progress_spec (ts : List Task) (t : Task)
    (hp : t.task_type = "project")
    (hd : ∃ c ∈ childTasks ts t.id, 0 < durDays c) :
    (deriveTask ts t).progress =
      round2 ((((((childTasks ts t.id).filter fun c => 0 < durDays c).map
          fun c => durDays c * c.progress).sum : ℤ) : ℚ) /
        (((((childTasks ts t.id).filter fun c => 0 < durDays c).map durDays).sum : ℤ) : ℚ)
        / 100) := by
  rcases hd with ⟨c, hc, hdc⟩
  have hkey : hasKey ts t.id = true :=
    hasKey_of_childTasks_ne_nil ts t.id (List.ne_nil_of_mem hc)
  have hfil : c ∈ (childTasks ts t.id).filter fun x => 0 < durDays x :=
    List.mem_filter.mpr ⟨hc, by simpa using hdc⟩
  have hfne : ((childTasks ts t.id).filter fun x => 0 < durDays x) ≠ [] :=
    List.ne_nil_of_mem hfil
  have hpos : (0 : ℤ) <
      (((childTasks ts t.id).filter fun x => 0 < durDays x).map durDays).sum := by
    apply List.sum_pos
    · intro x hx
      rcases List.mem_map.mp hx with ⟨y, hy, rfl⟩
      simpa using (List.mem_filter.mp hy).2
    · simpa using hfne
  simp [deriveTask, hp, hkey, rolledProgress, hfne, hpos]

/-- Counterexample to C5 as stated: for the project of `unevenTasks` the
duration-weighted average divided by 100 is 0.425, but the derived progress
is the two-decimal rounding 0.42. -/
theorem project_progress_unrounded_cex :
    (deriveTask unevenTasks
        ⟨1, none, "P", mkDate 2025 1 1, mkDate 2025 1 5, 0, none, none, "project"⟩).progress ≠
      (((((childTasks unevenTasks 1).filter fun c => 0 < durDays c).map
          fun c => durDays c * c.progress).sum : ℤ) : ℚ) /
        (((((childTasks unevenTasks 1).filter fun c => 0 < durDays c).map durDays).sum : ℤ) : ℚ)
        / 100 := by
  have hw : (((childTasks unevenTasks 1).filter fun c => 0 < durDays c).map
      fun c => durDays c * c.progress).sum = 170 := by decide
  have ht : (((childTasks unevenTasks 1).filter fun c => 0 < durDays c).map durDays).sum
      = 4 := by decide
  have h := rollup_progress_spec unevenTasks
    ⟨1, none, "P", mkDate 2025 1 1, mkDate 2025 1 5, 0, none, none, "project"⟩
    rfl ⟨⟨2, some 1, "C1", mkDate 2025 1 1, mkDate 2025 1 4, 50, none, none, "task"⟩,
      by decide, by decide⟩
  rw [h, hw, ht]
  norm_num [round2, rhe]

/-- C5 amended: the derived progress of a project with a durationful direct
child is the duration-weighted average of the durationful children's stored
percentages, divided by 100 and then rounded to two decimal places. -/
theorem project_progress_weighted (ts : List Task) (t : Task)
    (hp : t.task_type = "project")
    (hd : ∃ c ∈ childTasks ts t.id, 0 < durDays c) :
    (deriveTask ts t).progress =
      round2 ((((((childTasks ts t.id).filter fun c => 0 < durDays c).map
          fun c => durDays c * c.progress).sum : ℤ) : ℚ) /
        (((((childTasks ts t.id).filter fun c => 0 < durDays c).map durDays).sum : ℤ) : ℚ)
        / 100) :=
  rollup_progress_spec ts t hp hd

/-- Witness for C5 amended on the spec's concrete scenario (the seeded
project): (4·50 + 4·20)/8/100 = 0.35 and 0.35 is exact at two decimals. -/
theorem project_progress_weighted_witness :
    (⟨1, none, "summary 1", mkDate 2025 9 19, mkDate 2025 9 27,
        0, some "A", some "ip", "project"⟩ : Task).task_type = "project" ∧
    (∃ c ∈ childTasks seedTasks 1, 0 < durDays c) ∧
    (deriveTask seedTasks ⟨1, none, "summary 1", mkDate 2025 9 19, mkDate 2025 9 27,
        0, some "A", some "ip", "project"⟩).progress =
      round2 ((((((childTasks seedTasks 1).filter fun c => 0 < durDays c).map
          fun c => durDays c * c.progress).sum : ℤ) : ℚ) /
        (((((childTasks seedTasks 1).filter fun c => 0 < durDays c).map durDays).sum : ℤ) : ℚ)
        / 100) ∧
    (deriveTask seedTasks ⟨1, none, "summary 1", mkDate 2025 9 19, mkDate 2025 9 27,
        0, some "A", some "ip", "project"⟩).progress = 35 / 100 :=
  ⟨rfl, by decide,
    project_progress_weighted seedTasks
      ⟨1, none, "summary 1", mkDate 2025 9 19, mkDate 2025 9 27, 0, some "A", some "ip", "project"⟩
      rfl (by decide),
    by
      have h := project_progress_weighted seedTasks
        ⟨1, none, "summary 1", mkDate 2025 9 19, mkDate 2025 9 27, 0, some "A",
          some "ip", "project"⟩
        rfl ⟨⟨2, some 1, "sub 1-1", mkDate 2025 9 19, mkDate 2025 9 23, 50, some "B",
          some "ip", "task"⟩, by decide, by decide⟩
      have hw : (((childTasks seedTasks 1).filter fun c => 0 < durDays c).map
          fun c => durDays c * c.progress).sum = 280 := by decide
      have ht : (((childTasks seedTasks 1).filter fun c => 0 < durDays c).map durDays).sum
          = 8 := by decide
      rw [h, hw, ht]
      norm_num [round2, rhe]⟩

/-- C6: a project all of whose resolved children have zero duration keeps its
own stored percentage (as a ratio) for progress, while its dates still roll
up from the children. -/
theorem project_no_durationful_children (ts : List Task) (t : Task)
    (hp : t.task_type = "project")
    (hne : childTasks ts t.id ≠ [])
    (hz : ∀ c ∈ childTasks ts t.id, durDays c = 0) :
    (deriveTask ts t).progress = (t.progress : ℚ) / 100 ∧
    (∃ m, ((childTasks ts t.id).map Task.start).min? = some m ∧
      (deriveTask ts t).start_date = date_to_str m) ∧
    (∃ m, ((childTasks ts t.id).map Task.end_).max? = some m ∧
      (deriveTask ts t).end_date = date_to_str m) := by
  have hkey : hasKey ts t.id = true := hasKey_of_childTasks_ne_nil ts t.id hne
  have hfil : ((childTasks ts t.id).filter fun x => 0 < durDays x) = [] := by
    apply List.filter_eq_nil_iff.mpr
    intro x hx
    simp [hz x hx]
  refine ⟨?_, (rollup_dates_spec ts t hp hkey).1, (rollup_dates_spec ts t hp hkey).2⟩
  simp [deriveTask, hp, hkey, rolledProgress, hfil, round2_int_div_100]

/-- Witness for C6 on the milestone-only scenario: Q's progress stays 0 and
its dates roll up to 2025-09-27. -/
theorem project_no_durationful_children_witness :
    (⟨10, none, "Q", mkDate 2025 9 1, mkDate 2025 9 2,
        0, none, none, "project"⟩ : Task).task_type = "project" ∧
    childTasks milestoneOnlyTasks 10 ≠ [] ∧
    (∀ c ∈ childTasks milestoneOnlyTasks 10, durDays c = 0) ∧
    ((deriveTask milestoneOnlyTasks ⟨10, none, "Q", mkDate 2025 9 1, mkDate 2025 9 2,
        0, none, none, "project"⟩).progress = ((0 : ℤ) : ℚ) / 100 ∧
    (∃ m, ((childTasks milestoneOnlyTasks 10).map Task.start).min? = some m ∧
      (deriveTask milestoneOnlyTasks ⟨10, none, "Q", mkDate 2025 9 1, mkDate 2025 9 2,
        0, none, none, "project"⟩).start_date = date_to_str m) ∧
    (∃ m, ((childTasks milestoneOnlyTasks 10).map Task.end_).max? = some m ∧
      (deriveTask milestoneOnlyTasks ⟨10, none, "Q", mkDate 2025 9 1, mkDate 2025 9 2,
        0, none, none, "project"⟩).end_date = date_to_str m)) :=
  ⟨rfl, by decide, by decide,
    project_no_durationful_children milestoneOnlyTasks
      ⟨10, none, "Q", mkDate 2025 9 1, mkDate 2025 9 2, 0, none, none, "project"⟩
      rfl (by decide) (by decide)⟩

/-- Unfolding: `setPlanned` is `markPlanned` at the first matching id. -/
theorem setPlanned_eq (bt : BaselineTask) (ds : List DerivedTask) :
    setPlanned bt ds =
      match ds with
      | [] => []
      | d :: rest =>
        if d.id = bt.original_task_id then markPlanned bt d :: rest
        else d :: setPlanned bt rest := by
  cases ds <;> rfl

/-- Marking keeps the task id. -/
@[simp] theorem markPlanned_id (bt : BaselineTask) (d : DerivedTask) :
    (markPlanned bt d).id = d.id := rfl

/-- Annotation keeps the id sequence. -/
theorem setPlanned_map_id (bt : BaselineTask) (ds : List DerivedTask) :
    (setPlanned bt ds).map DerivedTask.id = ds.map DerivedTask.id := by
  induction ds with
  | nil => rfl
  | cons d rest ih =>
    rw [setPlanned]
    by_cases h : d.id = bt.original_task_id
    · simp [h]
    · simp [h, ih]

/-- On a list with unique ids, `setPlanned` marks exactly the matching
element. -/
theorem setPlanned_of_nodup (bt : BaselineTask) (ds : List DerivedTask)
    (h : (ds.map DerivedTask.id).Nodup) :
    setPlanned bt ds = ds.map fun d =>
      if d.id = bt.original_task_id then markPlanned bt d else d := by
  induction ds with
  | nil => rfl
  | cons d rest ih =>
    rw [List.map_cons] at h
    rcases List.nodup_cons.mp h with ⟨hnotin, hrest⟩
    rw [setPlanned]
    by_cases hd : d.id = bt.original_task_id
    · rw [if_pos hd, List.map_cons, if_pos hd]
      congr 1
      have hfix : ∀ x ∈ rest,
          (if x.id = bt.original_task_id then markPlanned bt x else x) = x := by
        intro x hx
        have hne : x.id ≠ bt.original_task_id := by
          intro hx'
          have hmem : x.id ∈ rest.map DerivedTask.id :=
            List.mem_map_of_mem DerivedTask.id hx
          rw [hx', ← hd] at hmem
          exact hnotin hmem
        simp [hne]
      rw [List.map_congr_left hfix]
      simp
    · rw [if_neg hd, List.map_cons, if_neg hd, ih hrest]

/-- Unfolding one snapshot row of the merge fold. -/
theorem applyBaseline_cons (ds : List DerivedTask) (bt : BaselineTask)
    (bts : List BaselineTask) :
    applyBaseline ds (bt :: bts) = applyBaseline (setPlanned bt ds) bts := rfl

/-- The merge over snapshot rows with unique ids on both sides: every derived
task whose id has a snapshot row is annotated from that row, every other
derived task is left alone. -/
theorem applyBaseline_of_nodup (ds : List DerivedTask) (bts : List BaselineTask)
    (hd : (ds.map DerivedTask.id).Nodup)
    (hb : (bts.map BaselineTask.original_task_id).Nodup) :
    applyBaseline ds bts = ds.map fun d =>
      match bts.find? (fun bt => bt.original_task_id == d.id) with
      | some bt => markPlanned bt d
      | none => d := by
  induction bts generalizing ds with
  | nil =>
    simp only [applyBaseline, List.foldl_nil, List.find?_nil]
    exact (List.map_id ds).symm
  | cons bt bts ih =>
    rw [List.map_cons] at hb
    rcases List.nodup_cons.mp hb with ⟨hbnotin, hbrest⟩
    rw [applyBaseline_cons, ih (setPlanned bt ds) (by rw [setPlanned_map_id]; exact hd) hbrest,
      setPlanned_of_nodup bt ds hd, List.map_map]
    apply List.map_congr_left
    intro d _
    by_cases hid : d.id = bt.original_task_id
    · have hfind : bts.find? (fun bt' => bt'.original_task_id == (markPlanned bt d).id)
          = none := by
        apply List.find?_eq_none.mpr
        intro bt' hbt'
        simp only [markPlanned_id, beq_iff_eq]
        intro h'
        have hmem : bt'.original_task_id ∈ bts.map BaselineTask.original_task_id :=
          List.mem_map_of_mem BaselineTask.original_task_id hbt'
        rw [h', hid] at hmem
        exact hbnotin hmem
      have hpbt : (bt.original_task_id == d.id) = true := by simp [hid]
      simp only [Function.comp_apply, if_pos hid, List.find?_cons, hpbt, hfind]
    · have hpbt : (bt.original_task_id == d.id) = false := by
        simp [Ne.symm hid]
      simp only [Function.comp_apply, if_neg hid, List.find?_cons, hpbt]

/-- The derived output keeps the stored id sequence. -/
theorem aggregate_map_id (ts : List Task) :
    (aggregate ts).map DerivedTask.id = ts.map Task.id := by
  simp only [aggregate, List.map_map]
  rfl

/-- C9: merging a snapshot onto the aggregated view annotates exactly the
derived tasks whose id has a snapshot row, with `planned_start`/`planned_end`
equal to the row's recorded dates serialized by the same `date_to_str` as the
live dates; derived tasks without a row keep `planned_start = planned_end =
none`, and an empty row set (unknown baseline id) merges to a no-op. -/
theorem baseline_merge_spec (ts : List Task) (bts : List BaselineTask)
    (hd : (ts.map Task.id).Nodup)
    (hb : (bts.map BaselineTask.original_task_id).Nodup) :
    (applyBaseline (aggregate ts) bts = (aggregate ts).map fun d =>
      match bts.find? (fun bt => bt.original_task_id == d.id) with
      | some bt => markPlanned bt d
      | none => d) ∧
    (∀ d ∈ applyBaseline (aggregate ts) bts,
      (∀ bt ∈ bts, bt.original_task_id ≠ d.id) →
        d.planned_start = none ∧ d.planned_end = none) ∧
    applyBaseline (aggregate ts) [] = aggregate ts := by
  have hd' : ((aggregate ts).map DerivedTask.id).Nodup := by
    rw [aggregate_map_id]; exact hd
  have hmain := applyBaseline_of_nodup (aggregate ts) bts hd' hb
  refine ⟨hmain, ?_, rfl⟩
  intro d hdmem hnone
  rw [hmain] at hdmem
  rcases List.mem_map.mp hdmem with ⟨d0, hd0, hdeq⟩
  rcases hfind : bts.find? (fun bt => bt.original_task_id == d0.id) with _ | bt
  · rw [hfind] at hdeq
    rcases List.mem_map.mp hd0 with ⟨t, _, hteq⟩
    constructor
    · rw [← hdeq, ← hteq]; rfl
    · rw [← hdeq, ← hteq]; rfl
  · exfalso
    have hmem := List.mem_of_find?_eq_some hfind
    have := List.find?_some hfind
    rw [beq_iff_eq] at this
    have hid : d.id = d0.id := by
      rw [hfind] at hdeq
      rw [← hdeq]; rfl
    exact hnone bt hmem (by rw [this, hid])

/-- Witness for C9 on the seeded database with a one-row snapshot for task 5
(tasks 1-4 keep no planned fields, task 5 is annotated). -/
theorem baseline_merge_spec_witness :
    (seedTasks.map Task.id).Nodup ∧
    (([⟨5, mkDate 2025 9 28, mkDate 2025 10 1⟩] : List BaselineTask).map
      BaselineTask.original_task_id).Nodup ∧
    ((applyBaseline (aggregate seedTasks) [⟨5, mkDate 2025 9 28, mkDate 2025 10 1⟩] =
      (aggregate seedTasks).map fun d =>
        match ([⟨5, mkDate 2025 9 28, mkDate 2025 10 1⟩] : List BaselineTask).find?
            (fun bt => bt.original_task_id == d.id) with
        | some bt => markPlanned bt d
        | none => d) ∧
    (∀ d ∈ applyBaseline (aggregate seedTasks) [⟨5, mkDate 2025 9 28, mkDate 2025 10 1⟩],
      (∀ bt ∈ ([⟨5, mkDate 2025 9 28, mkDate 2025 10 1⟩] : List BaselineTask),
        bt.original_task_id ≠ d.id) →
        d.planned_start = none ∧ d.planned_end = none) ∧
    applyBaseline (aggregate seedTasks) [] = aggregate seedTasks) :=
  ⟨by decide, by decide,
    baseline_merge_spec seedTasks [⟨5, mkDate 2025 9 28, mkDate 2025 10 1⟩]
      (by decide) (by decide)⟩

/-- On a task list with unique ids, `find?` by a member's id returns that
member. -/
theorem find?_id_of_nodup (ts : List Task) (t : Task)
    (hd : (ts.map Task.id).Nodup) (ht : t ∈ ts) :
    ts.find? (fun u => u.id == t.id) = some t := by
  induction ts with
  | nil => cases ht
  | cons u rest ih =>
    rw [List.map_cons] at hd
    rcases List.nodup_cons.mp hd with ⟨hnotin, hrest⟩
    rcases List.mem_cons.mp ht with rfl | hmem
    · simp [List.find?_cons]
    · have hne : (u.id == t.id) = false := by
        simp only [beq_eq_false_iff_ne, ne_eq]
        intro h
        have hmem' : t.id ∈ rest.map Task.id := List.mem_map_of_mem Task.id hmem
        rw [← h] at hmem'
        exact hnotin hmem'
      simp only [List.find?_cons, hne]
      exact ih hrest hmem

/-- Counterexample to C1 as stated: after creating a baseline of
`skewedTasks` and immediately merging it, the project's `planned_start`
(its snapshotted stored start, Jan 1) differs from its derived `start_date`
(the child minimum, Jan 3). -/
theorem baseline_roundtrip_cex :
    ∃ d ∈ applyBaseline (aggregate skewedTasks) (snapshotOf skewedTasks),
      d.planned_start ≠ some d.start_date := by
  decide

/-- C1 amended: merging a freshly created baseline onto the view computed
from the same (unchanged, unique-id) task list annotates every task with
`planned_start`/`planned_end` equal to its snapshotted *stored* dates; these
coincide with the derived `start_date`/`end_date` for every task that is not
a `project` with children (for such projects the derived dates are the
children rollup while the snapshot keeps the stored dates). -/
theorem baseline_roundtrip_amended (ts : List Task) (t : Task)
    (hd : (ts.map Task.id).Nodup) (_ht : t ∈ ts) :
    (applyBaseline (aggregate ts) (snapshotOf ts) = ts.map fun u =>
      { deriveTask ts u with planned_start := some (date_to_str u.start)
                             planned_end := some (date_to_str u.end_) }) ∧
    (t.task_type ≠ "project" ∨ hasKey ts t.id = false →
      (deriveTask ts t).start_date = date_to_str t.start ∧
      (deriveTask ts t).end_date = date_to_str t.end_) := by
  constructor
  · have hd' : ((aggregate ts).map DerivedTask.id).Nodup := by
      rw [aggregate_map_id]; exact hd
    have hsnodup : ((snapshotOf ts).map BaselineTask.original_task_id).Nodup := by
      have heq : (snapshotOf ts).map BaselineTask.original_task_id = ts.map Task.id := by
        simp only [snapshotOf, List.map_map]
        rfl
      rw [heq]; exact hd
    rw [applyBaseline_of_nodup (aggregate ts) (snapshotOf ts) hd' hsnodup]
    simp only [aggregate, List.map_map]
    apply List.map_congr_left
    intro u hu
    have hfind : (snapshotOf ts).find?
        (fun bt => bt.original_task_id == (deriveTask ts u).id)
        = some ⟨u.id, u.start, u.end_⟩ := by
      rw [snapshotOf, List.find?_map]
      have hcomp : ((fun bt => bt.original_task_id == (deriveTask ts u).id) ∘
          fun v : Task => (⟨v.id, v.start, v.end_⟩ : BaselineTask)) =
            fun v : Task => v.id == u.id := rfl
      rw [hcomp, find?_id_of_nodup ts u hd hu]
      rfl
    simp only [Function.comp_apply, hfind]
    rfl
  · intro hcond
    by_cases hp : t.task_type = "project"
    · rcases hcond with h | hk
      · exact absurd hp h
      · constructor <;> simp [deriveTask, hp, hk]
    · rw [deriveTask_not_project ts t hp]
      exact ⟨rfl, rfl⟩

/-- Witness for C1 amended on the seeded database, at the milestone
(task 4). -/
theorem baseline_roundtrip_amended_witness :
    (seedTasks.map Task.id).Nodup ∧
    (⟨4, none, "report", mkDate 2025 9 27, mkDate 2025 9 27,
        100, none, none, "milestone"⟩ : Task) ∈ seedTasks ∧
    (applyBaseline (aggregate seedTasks) (snapshotOf seedTasks) = seedTasks.map fun u =>
      { deriveTask seedTasks u with planned_start := some (date_to_str u.start)
                                    planned_end := some (date_to_str u.end_) }) ∧
    (deriveTask seedTasks ⟨4, none, "report", mkDate 2025 9 27, mkDate 2025 9 27,
        100, none, none, "milestone"⟩).start_date = date_to_str (mkDate 2025 9 27) ∧
    (deriveTask seedTasks ⟨4, none, "report", mkDate 2025 9 27, mkDate 2025 9 27,
        100, none, none, "milestone"⟩).end_date = date_to_str (mkDate 2025 9 27) :=
  ⟨by decide, by decide,
    (baseline_roundtrip_amended seedTasks
      ⟨4, none, "report", mkDate 2025 9 27, mkDate 2025 9 27, 100, none, none, "milestone"⟩
      (by decide) (by decide)).1,
    (baseline_roundtrip_amended seedTasks
      ⟨4, none, "report", mkDate 2025 9 27, mkDate 2025 9 27, 100, none, none, "milestone"⟩
      (by decide) (by decide)).2 (Or.inl (by decide))⟩

/-- Counterexample to C2 as stated: updating the seeded child task 2 with an
empty form payload resets its `parent_id` from `some 1` to `none`
(`data.get('parent')` is `None`, which differs from `'0'`, so line 151
assigns it), so omitting `parent` does not leave the stored parent
unchanged. -/
theorem update_partial_cex :
    (updateTaskFields
        ⟨2, some 1, "sub 1-1", mkDate 2025 9 19, mkDate 2025 9 23, 50, some "B",
          some "ip", "task"⟩
        {}).parent_id = none ∧
    (⟨2, some 1, "sub 1-1", mkDate 2025 9 19, mkDate 2025 9 23, 50, some "B",
        some "ip", "task"⟩ : Task).parent_id = some 1 := by
  constructor
  · rfl
  · rfl

/-- C2 amended: PUT `/api/task/{id}` on an existing task answers `updated`
and is a partial update for `text`, `start_date`, `end_date`, `type`,
`assignee` and `status` (an absent field leaves the stored field unchanged);
`progress` is written only when the payload's `type` is not `project`, and an
absent `progress` round-trips the stored percentage unchanged (under exact
arithmetic); but an absent `parent` field always resets `parent_id` to
`none`. -/
theorem update_partial_amended (tasks : List Task) (t : Task) (f : TaskForm)
    (ht : t ∈ tasks) :
    (f.text = none → (updateTaskFields t f).name = t.name) ∧
    (f.start_date = none → (updateTaskFields t f).start = t.start) ∧
    (f.end_date = none → (updateTaskFields t f).end_ = t.end_) ∧
    (f.type = none → (updateTaskFields t f).task_type = t.task_type) ∧
    (f.assignee = none → (updateTaskFields t f).assignee = t.assignee) ∧
    (f.status = none → (updateTaskFields t f).status = t.status) ∧
    (f.progress = none → f.type ≠ some "project" →
      (updateTaskFields t f).progress = t.progress) ∧
    (f.type = some "project" → (updateTaskFields t f).progress = t.progress) ∧
    (f.parent = none → (updateTaskFields t f).parent_id = none) ∧
    (update_task tasks t.id f).2 = "updated" := by
  refine ⟨?_, ?_, ?_, ?_, ?_, ?_, ?_, ?_, ?_, ?_⟩
  · intro h; simp [updateTaskFields, h]
  · intro h; simp [updateTaskFields, h, str_to_date, date_to_str]
  · intro h; simp [updateTaskFields, h, str_to_date, date_to_str]
  · intro h; simp [updateTaskFields, h]
  · intro h; simp [updateTaskFields, h]
  · intro h; simp [updateTaskFields, h]
  · intro h hty
    have : ((t.progress : ℚ) / 100) * 100 = (t.progress : ℚ) := by ring
    simp [updateTaskFields, h, hty, this, pyInt_intCast]
  · intro h; simp [updateTaskFields, h]
  · intro h; simp [updateTaskFields, h]
  · have : tasks.any (fun u => u.id == t.id) = true :=
      List.any_eq_true.mpr ⟨t, ht, by simp⟩
    simp [update_task, this]

/-- Witness for C2 amended: update the seeded task 5 with a payload that only
sets `status`. -/
theorem update_partial_amended_witness :
    (⟨5, none, "indep 2", mkDate 2025 9 28, mkDate 2025 10 1, 0, some "C",
        some "wait", "task"⟩ : Task) ∈ seedTasks ∧
    (({ status := some "done" } : TaskForm).text = none →
      (updateTaskFields ⟨5, none, "indep 2", mkDate 2025 9 28, mkDate 2025 10 1, 0,
        some "C", some "wait", "task"⟩ { status := some "done" }).name = "indep 2") ∧
    (({ status := some "done" } : TaskForm).progress = none →
      ({ status := some "done" } : TaskForm).type ≠ some "project" →
      (updateTaskFields ⟨5, none, "indep 2", mkDate 2025 9 28, mkDate 2025 10 1, 0,
        some "C", some "wait", "task"⟩ { status := some "done" }).progress = 0) ∧
    (({ status := some "done" } : TaskForm).parent = none →
      (updateTaskFields ⟨5, none, "indep 2", mkDate 2025 9 28, mkDate 2025 10 1, 0,
        some "C", some "wait", "task"⟩ { status := some "done" }).parent_id = none) ∧
    (update_task seedTasks 5 { status := some "done" }).2 = "updated" := by
  have h := update_partial_amended seedTasks
    ⟨5, none, "indep 2", mkDate 2025 9 28, mkDate 2025 10 1, 0, some "C",
      some "wait", "task"⟩
    { status := some "done" } (by decide)
  exact ⟨by decide, h.1, h.2.2.2.2.2.2.1, h.2.2.2.2.2.2.2.2.1, h.2.2.2.2.2.2.2.2.2⟩

/-- Row-wise form of `reaggregated`. -/
theorem reaggregated_eq_map (ts : List Task) :
    reaggregated ts = ts.map (reTask ts) := by
  simp [reaggregated, aggregate, List.map_map, reTask, Function.comp_def]

/-- Re-expression keeps the id. -/
@[simp] theorem reTask_id (ts : List Task) (t : Task) : (reTask ts t).id = t.id := rfl

/-- Re-expression keeps the name. -/
@[simp] theorem reTask_name (ts : List Task) (t : Task) : (reTask ts t).name = t.name := rfl

/-- Re-expression keeps the assignee and status. -/
@[simp] theorem reTask_assignee (ts : List Task) (t : Task) :
    (reTask ts t).assignee = t.assignee := rfl

/-- Re-expression keeps the status. -/
@[simp] theorem reTask_status (ts : List Task) (t : Task) :
    (reTask ts t).status = t.status := rfl

/-- Re-expression keeps Python truthiness of the parent reference (a stored
`parent_id` of `some 0` becomes `none`, but both are falsy). -/
theorem truthyParent_reTask (ts : List Task) (t : Task) :
    truthyParent (reTask ts t) = truthyParent t := by
  rcases hp : t.parent_id with _ | p
  · simp [reTask, derivedToTask, deriveTask, truthyParent, hp]
  · by_cases h0 : p = 0
    · simp [reTask, derivedToTask, deriveTask, truthyParent, hp, h0]
    · simp [reTask, derivedToTask, deriveTask, truthyParent, hp, h0]

/-- Re-expression keeps the `parent` output value. -/
theorem reTask_parent_getD (ts : List Task) (t : Task) :
    (reTask ts t).parent_id.getD 0 = t.parent_id.getD 0 := by
  rcases hp : t.parent_id with _ | p
  · simp [reTask, derivedToTask, deriveTask, hp]
  · by_cases h0 : p = 0
    · simp [reTask, derivedToTask, deriveTask, hp, h0]
    · simp [reTask, derivedToTask, deriveTask, hp, h0]

/-- The children map of the re-expressed table has the same id lists. -/
theorem childIds_reaggregated (ts : List Task) (pid : Nat) :
    childIds (reaggregated ts) pid = childIds ts pid := by
  rw [reaggregated_eq_map, childIds, List.filter_map]
  have hpred : ((fun t => truthyParent t == some pid) ∘ reTask ts) =
      fun t => truthyParent t == some pid := by
    funext u
    simp [Function.comp_apply, truthyParent_reTask]
  rw [hpred, List.map_map]
  rfl

/-- The children map of the re-expressed table has the same keys. -/
theorem hasKey_reaggregated (ts : List Task) (pid : Nat) :
    hasKey (reaggregated ts) pid = hasKey ts pid := by
  rw [reaggregated_eq_map, hasKey, List.any_map]
  have hpred : ((fun t => truthyParent t == some pid) ∘ reTask ts) =
      fun t => truthyParent t == some pid := by
    funext u
    simp [Function.comp_apply, truthyParent_reTask]
  rw [hpred]
  rfl

/-- The id index of the re-expressed table finds the re-expressed row. -/
theorem tasksMapFind_reaggregated (ts : List Task) (i : Nat) :
    tasksMapFind (reaggregated ts) i = (tasksMapFind ts i).map (reTask ts) := by
  rw [reaggregated_eq_map, tasksMapFind, ← List.map_reverse, List.find?_map]
  have hpred : ((fun t : Task => t.id == i) ∘ reTask ts) = fun t : Task => t.id == i := rfl
  rw [hpred]
  rfl

/-- The resolved child lists of the re-expressed table are the re-expressed
child lists. -/
theorem childTasks_reaggregated (ts : List Task) (pid : Nat) :
    childTasks (reaggregated ts) pid = (childTasks ts pid).map (reTask ts) := by
  rw [childTasks, childIds_reaggregated, childTasks, List.map_filterMap]
  apply List.filterMap_congr
  intro i _
  rw [tasksMapFind_reaggregated]

/-- Re-expressing a non-project row keeps its stored scalar fields: the
aggregation passed its dates and progress through, and the ingestion
conversions invert the serialization exactly. -/
theorem reTask_scalars_of_not_project (ts : List Task) (c : Task)
    (h : c.task_type ≠ "project") :
    (reTask ts c).start = c.start ∧ (reTask ts c).end_ = c.end_ ∧
    (reTask ts c).progress = c.progress ∧ (reTask ts c).task_type = c.task_type := by
  have h1 : (reTask ts c).start = c.start := by
    show str_to_date (deriveTask ts c).start_date = c.start
    rw [deriveTask_not_project ts c h]
    rfl
  have h2 : (reTask ts c).end_ = c.end_ := by
    show str_to_date (deriveTask ts c).end_date = c.end_
    rw [deriveTask_not_project ts c h]
    rfl
  have h3 : (reTask ts c).progress = c.progress := by
    show pyInt ((deriveTask ts c).progress * 100) = c.progress
    rw [deriveTask_not_project ts c h]
    show pyInt (round2 ((c.progress : ℚ) / 100) * 100) = c.progress
    rw [round2_int_div_100]
    have hmul : ((c.progress : ℚ) / 100) * 100 = (c.progress : ℚ) := by ring
    rw [hmul, pyInt_intCast]
  have h4 : (reTask ts c).task_type = c.task_type := by
    show (deriveTask ts c).type = c.task_type
    rw [deriveTask_not_project ts c h]
  exact ⟨h1, h2, h3, h4⟩

/-- Re-expressing a non-project row keeps its duration. -/
theorem reTask_durDays_of_not_project (ts : List Task) (c : Task)
    (h : c.task_type ≠ "project") : durDays (reTask ts c) = durDays c := by
  rcases reTask_scalars_of_not_project ts c h with ⟨h1, h2, _, _⟩
  rw [durDays, durDays, h1, h2]

/-- On a table with unique ids, a resolved child is a member of the table
whose truthy parent is the key. -/
theorem mem_childTasks (ts : List Task) (pid : Nat) (c : Task)
    (hd : (ts.map Task.id).Nodup) (hc : c ∈ childTasks ts pid) :
    c ∈ ts ∧ truthyParent c = some pid := by
  rw [childTasks] at hc
  rcases List.mem_filterMap.mp hc with ⟨i, hi, hfind⟩
  have hcmem : c ∈ ts := List.mem_reverse.mp (List.mem_of_find?_eq_some hfind)
  have hcid : c.id = i := by
    have := List.find?_some hfind
    simpa using this
  rcases List.mem_map.mp hi with ⟨c', hc', hc'id⟩
  have hc'mem : c' ∈ ts := (List.mem_filter.mp hc').1
  have hc'par : truthyParent c' = some pid := by
    simpa using (List.mem_filter.mp hc').2
  have hcc' : c = c' :=
    List.inj_on_of_nodup_map hd hcmem hc'mem (hcid.trans hc'id.symm)
  rw [hcc']
  exact ⟨hc'mem, hc'par⟩

/-- The date-minimum rollup only depends on the children's starts. -/
theorem rolledStart_map (cts : List Task) (g : Task → Task) (d1 d2 : Int)
    (hne : cts ≠ []) (hg : ∀ c ∈ cts, (g c).start = c.start) :
    rolledStart (cts.map g) d1 = rolledStart cts d2 := by
  rcases cts with _ | ⟨c, rest⟩
  · exact absurd rfl hne
  · simp only [List.map_cons, rolledStart]
    rw [List.foldl_map, hg c (by simp)]
    exact List.foldl_ext _ _ _ fun a x hx => by rw [hg x (by simp [hx])]

/-- The date-maximum rollup only depends on the children's ends. -/
theorem rolledEnd_map (cts : List Task) (g : Task → Task) (d1 d2 : Int)
    (hne : cts ≠ []) (hg : ∀ c ∈ cts, (g c).end_ = c.end_) :
    rolledEnd (cts.map g) d1 = rolledEnd cts d2 := by
  rcases cts with _ | ⟨c, rest⟩
  · exact absurd rfl hne
  · simp only [List.map_cons, rolledEnd]
    rw [List.foldl_map, hg c (by simp)]
    exact List.foldl_ext _ _ _ fun a x hx => by rw [hg x (by simp [hx])]

/-- The progress rollup only depends on the children's durations and
progress values, and on the fallback only when no child is durationful. -/
theorem rolledProgress_map (cts : List Task) (g : Task → Task) (d1 d2 : ℚ)
    (hg : ∀ c ∈ cts, durDays (g c) = durDays c ∧ (g c).progress = c.progress)
    (hdflt : (cts.filter fun c => 0 < durDays c) = [] → d1 = d2) :
    rolledProgress (cts.map g) d1 = rolledProgress cts d2 := by
  have hfil : ((cts.map g).filter fun c => 0 < durDays c)
      = (cts.filter fun c => 0 < durDays c).map g := by
    rw [List.filter_map]
    exact congrArg (List.map g)
      (List.filter_congr fun x hx => by simp [Function.comp_apply, (hg x hx).1])
  have hdur : ((cts.filter fun c => 0 < durDays c).map g).map durDays
      = (cts.filter fun c => 0 < durDays c).map durDays := by
    rw [List.map_map]
    exact List.map_congr_left fun x hx =>
      (hg x (List.mem_of_mem_filter hx)).1
  have hwt : ((cts.filter fun c => 0 < durDays c).map g).map
        (fun ct => durDays ct * ct.progress)
      = (cts.filter fun c => 0 < durDays c).map (fun ct => durDays ct * ct.progress) := by
    rw [List.map_map]
    refine List.map_congr_left fun x hx => ?_
    have hx' := List.mem_of_mem_filter hx
    simp only [Function.comp_apply, (hg x hx').1, (hg x hx').2]
  rw [rolledProgress, rolledProgress, hfil, hdur, hwt]
  by_cases hD : (cts.filter fun c => 0 < durDays c) = []
  · simp [hD, hdflt hD]
  · rcases hDc : (cts.filter fun c => 0 < durDays c) with _ | ⟨x, xs⟩
    · exact absurd hDc hD
    · have hpos : (0 : ℤ) < ((x :: xs).map durDays).sum := by
        apply List.sum_pos
        · intro y hy
          rcases List.mem_map.mp hy with ⟨z, hz, rfl⟩
          have hz' : z ∈ cts.filter (fun c => 0 < durDays c) := by
            rw [hDc]; exact hz
          simpa using (List.mem_filter.mp hz').2
        · simp
      have hpos' : (0 : ℤ) < durDays x + (List.map durDays xs).sum := by
        simpa using hpos
      simp [hpos']

/-- Pointwise idempotence: on a unique-id table in which no project is
itself a child (one-level hierarchy), re-deriving a re-expressed row against
the re-expressed table gives the original derived row. -/
theorem deriveTask_reaggregated (ts : List Task) (t : Task)
    (hd : (ts.map Task.id).Nodup)
    (hflat : ∀ c ∈ ts, c.task_type = "project" → truthyParent c = none) :
    deriveTask (reaggregated ts) (reTask ts t) = deriveTask ts t := by
  by_cases hp : t.task_type = "project"
  · by_cases hk : hasKey ts t.id = true
    · have hid : (reTask ts t).id = t.id := rfl
      have htype : (reTask ts t).task_type = "project" := by
        show (deriveTask ts t).type = "project"
        simp [deriveTask, hp, hk]
      have hk' : hasKey (reaggregated ts) (reTask ts t).id = true := by
        rw [hid, hasKey_reaggregated]; exact hk
      have hcts : childTasks (reaggregated ts) (reTask ts t).id
          = (childTasks ts t.id).map (reTask ts) := by
        rw [hid, childTasks_reaggregated]
      have hne : childTasks ts t.id ≠ [] := childTasks_ne_nil_of_hasKey ts t.id hk
      have hchild : ∀ c ∈ childTasks ts t.id, c.task_type ≠ "project" := by
        intro c hc hcproj
        rcases mem_childTasks ts t.id c hd hc with ⟨hcmem, hcpar⟩
        rw [hflat c hcmem hcproj] at hcpar
        cases hcpar
      have hs : rolledStart (childTasks (reaggregated ts) (reTask ts t).id)
          (reTask ts t).start = rolledStart (childTasks ts t.id) t.start := by
        rw [hcts]
        exact rolledStart_map _ _ _ _ hne fun c hc =>
          (reTask_scalars_of_not_project ts c (hchild c hc)).1
      have he : rolledEnd (childTasks (reaggregated ts) (reTask ts t).id)
          (reTask ts t).end_ = rolledEnd (childTasks ts t.id) t.end_ := by
        rw [hcts]
        exact rolledEnd_map _ _ _ _ hne fun c hc =>
          (reTask_scalars_of_not_project ts c (hchild c hc)).2.1
      have hprog : rolledProgress (childTasks (reaggregated ts) (reTask ts t).id)
          (((reTask ts t).progress : ℚ) / 100)
          = rolledProgress (childTasks ts t.id) ((t.progress : ℚ) / 100) := by
        rw [hcts]
        apply rolledProgress_map
        · intro c hc
          exact ⟨reTask_durDays_of_not_project ts c (hchild c hc),
            (reTask_scalars_of_not_project ts c (hchild c hc)).2.2.1⟩
        · intro hDe
          have hder : (deriveTask ts t).progress = round2 ((t.progress : ℚ) / 100) := by
            simp [deriveTask, hp, hk, rolledProgress, hDe]
          have hre : (reTask ts t).progress = t.progress := by
            show pyInt ((deriveTask ts t).progress * 100) = t.progress
            rw [hder, round2_int_div_100]
            have hmul : ((t.progress : ℚ) / 100) * 100 = (t.progress : ℚ) := by ring
            rw [hmul, pyInt_intCast]
          rw [hre]
      rw [deriveTask_project_key (reaggregated ts) (reTask ts t) htype hk',
        deriveTask_project_key ts t hp hk, DerivedTask.mk.injEq]
      exact ⟨rfl, rfl, by rw [hs], by rw [he], by rw [hs, he], by rw [hprog],
        reTask_parent_getD ts t, by rw [htype, hp], rfl, rfl, rfl, rfl⟩
    · have hkf : hasKey ts t.id = false := by
        cases h : hasKey ts t.id
        · rfl
        · exact absurd h hk
      have htype : (reTask ts t).task_type = "task" := by
        show (deriveTask ts t).type = "task"
        simp [deriveTask, hp, hkf]
      have h1 : (reTask ts t).start = t.start := by
        show str_to_date (deriveTask ts t).start_date = t.start
        simp [deriveTask, hp, hkf, str_to_date, date_to_str]
      have h2 : (reTask ts t).end_ = t.end_ := by
        show str_to_date (deriveTask ts t).end_date = t.end_
        simp [deriveTask, hp, hkf, str_to_date, date_to_str]
      have h3 : (reTask ts t).progress = t.progress := by
        show pyInt ((deriveTask ts t).progress * 100) = t.progress
        have hder : (deriveTask ts t).progress = round2 ((t.progress : ℚ) / 100) := by
          simp [deriveTask, hp, hkf]
        rw [hder, round2_int_div_100]
        have hmul : ((t.progress : ℚ) / 100) * 100 = (t.progress : ℚ) := by ring
        rw [hmul, pyInt_intCast]
      have htne : (reTask ts t).task_type ≠ "project" := by
        rw [htype]
        simp
      rw [deriveTask_not_project _ _ htne, deriveTask_project_nokey ts t hp hkf,
        DerivedTask.mk.injEq]
      exact ⟨rfl, rfl, by rw [h1], by rw [h2], by rw [h1, h2], by rw [h3],
        reTask_parent_getD ts t, by rw [htype], rfl, rfl, rfl, rfl⟩
  · rcases reTask_scalars_of_not_project ts t hp with ⟨h1, h2, h3, h4⟩
    have hp' : (reTask ts t).task_type ≠ "project" := by
      rw [h4]; exact hp
    rw [deriveTask_not_project _ _ hp', deriveTask_not_project ts t hp,
      DerivedTask.mk.injEq]
    exact ⟨rfl, rfl, by rw [h1], by rw [h2], by rw [h1, h2], by rw [h3],
      reTask_parent_getD ts t, by rw [h4], rfl, rfl, rfl, rfl⟩

/-- Counterexample to C3 as stated: aggregating the re-expressed derived set
of `nestedTasks` does not reproduce the first aggregation — the root
project's derived start moves from its child project's stored start to the
grandchild's start, because the rollup is single-level. -/
theorem aggregate_idempotent_cex :
    aggregate (reaggregated nestedTasks) ≠ aggregate nestedTasks := by
  intro h
  have heq : (aggregate (reaggregated nestedTasks)).map DerivedTask.start_date
      = (aggregate nestedTasks).map DerivedTask.start_date := by rw [h]
  have hne : (aggregate (reaggregated nestedTasks)).map DerivedTask.start_date
      ≠ (aggregate nestedTasks).map DerivedTask.start_date := by decide
  exact hne heq

/-- C3 amended: the aggregator is a pure function of its input, and on a
unique-id task set in which no project is itself a child (one-level
hierarchy, the shape the rollup is designed for) aggregating the derived set,
re-expressed as stored rows by the system's own ingestion conventions, yields
exactly the first aggregation. -/
theorem aggregate_idempotent_amended (ts : List Task)
    (hd : (ts.map Task.id).Nodup)
    (hflat : ∀ c ∈ ts, c.task_type = "project" → truthyParent c = none) :
    aggregate (reaggregated ts) = aggregate ts := by
  unfold aggregate
  rw [reaggregated_eq_map, List.map_map]
  apply List.map_congr_left
  intro t _
  have hpt := deriveTask_reaggregated ts t hd hflat
  rw [reaggregated_eq_map] at hpt
  simpa using hpt

/-- Witness for C3 amended: the seeded database is a one-level hierarchy. -/
theorem aggregate_idempotent_amended_witness :
    (seedTasks.map Task.id).Nodup ∧
    (∀ c ∈ seedTasks, c.task_type = "project" → truthyParent c = none) ∧
    aggregate (reaggregated seedTasks) = aggregate seedTasks :=
  ⟨by decide, by decide, aggregate_idempotent_amended seedTasks (by decide) (by decide)⟩

end Gantt
